import Mathlib

/-!
Verification of the acdlo static-base model pipeline.

The derivation engine (scripts/static_base_model_gen.py) builds symbolic
expressions with a computer-algebra system: the planar forward kinematics of a
polynomial-curvature appendage, its Jacobian, the gravity vector, the inertia
matrix, the Coriolis matrix and mass-identification regressors, and writes each
to a named cache slot.  The evaluation layer (src/acdlo/static_base.py) loads
cached expressions at import time and compiles them to numeric functions.

We embed the symbolic layer shallowly: expressions are a small syntax of
variables, rational constants, sums, products, negation, sine, cosine and
definite integrals; substitution and symbolic differentiation are the
operations the engine uses; a denotation into the reals interprets the
integral constructor as the Mathlib interval integral.  Floating-point
literals of the script (9.81, the mass midpoints i/6 + 1/12) are represented
by the rationals they denote.  The cache and the lambdify argument contract
are modelled at the level of slot names and symbol lists.
-/

set_option maxRecDepth 100000
set_option maxHeartbeats 1000000

namespace AcdloStaticBase

/-- Symbols of the derivation script: masses m_L and m_E, total length L,
diameter D, gravity direction gamma, the arclength coordinate s, the
integration variable v, the cross-section offset d, and the configuration
coordinates theta_k with their rates. -/
inductive Sym : Type
  | m_L
  | m_E
  | L
  | D
  | gamma
  | s
  | v
  | d
  | theta (k : Nat)
  | dtheta (k : Nat)
  | ddtheta (k : Nat)
deriving DecidableEq

/-- Symbolic expressions manipulated by the derivation engine: variables,
rational constants given as an integer numerator over a natural denominator,
sums, products, negation, sine, cosine, and definite integrals with a bound
variable. -/
inductive Expr : Type
  | var (x : Sym)
  | const (num : Int) (den : Nat)
  | add (a b : Expr)
  | mul (a b : Expr)
  | neg (a : Expr)
  | sin (a : Expr)
  | cos (a : Expr)
  | integral (x : Sym) (lo hi body : Expr)
deriving DecidableEq

/-- Substitution of a symbol by an expression, respecting the integral
binder: the body is only rewritten when the bound variable differs from the
substituted symbol; the bounds are always rewritten. -/
def subs : Expr → Sym → Expr → Expr
  | Expr.var x, y, u => if x = y then u else Expr.var x
  | Expr.const n m, _, _ => Expr.const n m
  | Expr.add a b, y, u => Expr.add (subs a y u) (subs b y u)
  | Expr.mul a b, y, u => Expr.mul (subs a y u) (subs b y u)
  | Expr.neg a, y, u => Expr.neg (subs a y u)
  | Expr.sin a, y, u => Expr.sin (subs a y u)
  | Expr.cos a, y, u => Expr.cos (subs a y u)
  | Expr.integral x lo hi b, y, u =>
      Expr.integral x (subs lo y u) (subs hi y u) (if x = y then b else subs b y u)

/-- Symbolic differentiation, with the Leibniz rule on the integral
constructor.  This is the derivative operator the engine applies through
jacobian and diff. -/
def diffE : Expr → Sym → Expr
  | Expr.var x, y => if x = y then Expr.const 1 1 else Expr.const 0 1
  | Expr.const _ _, _ => Expr.const 0 1
  | Expr.add a b, y => Expr.add (diffE a y) (diffE b y)
  | Expr.mul a b, y => Expr.add (Expr.mul (diffE a y) b) (Expr.mul a (diffE b y))
  | Expr.neg a, y => Expr.neg (diffE a y)
  | Expr.sin a, y => Expr.mul (Expr.cos a) (diffE a y)
  | Expr.cos a, y => Expr.neg (Expr.mul (Expr.sin a) (diffE a y))
  | Expr.integral x lo hi b, y =>
      if x = y then Expr.const 0 1
      else
        Expr.add (Expr.integral x lo hi (diffE b y))
          (Expr.add (Expr.mul (subs b x hi) (diffE hi y))
            (Expr.neg (Expr.mul (subs b x lo) (diffE lo y))))

/-- Free symbols of an expression, with multiplicity; the integral binder is
removed from the body contribution. -/
def freeList : Expr → List Sym
  | Expr.var x => [x]
  | Expr.const _ _ => []
  | Expr.add a b => freeList a ++ freeList b
  | Expr.mul a b => freeList a ++ freeList b
  | Expr.neg a => freeList a
  | Expr.sin a => freeList a
  | Expr.cos a => freeList a
  | Expr.integral x lo hi b =>
      freeList lo ++ freeList hi ++ (freeList b).filter (fun z => decide (z ≠ x))

/-- Boolean check that every symbol of the first list belongs to the second. -/
def allIn (l A : List Sym) : Bool := l.all fun z => decide (z ∈ A)

/-- Denotation of an expression as a real number, given an environment for the
symbols.  The integral constructor denotes the interval integral, with the
environment updated on the bound variable. -/
noncomputable def denote : (Sym → ℝ) → Expr → ℝ
  | env, Expr.var x => env x
  | _, Expr.const n m => (n : ℝ) / (m : ℝ)
  | env, Expr.add a b => denote env a + denote env b
  | env, Expr.mul a b => denote env a * denote env b
  | env, Expr.neg a => -denote env a
  | env, Expr.sin a => Real.sin (denote env a)
  | env, Expr.cos a => Real.cos (denote env a)
  | env, Expr.integral x lo hi b =>
      ∫ t in (denote env lo)..(denote env hi), denote (Function.update env x t) b

/-! ## Forward kinematics (static_base_model_gen.py, lines 57 to 81)

alpha = theta_0 + theta_1 * v + 0.5 * theta_2 * v ** 2, the order-2 curvature
field; fk integrates (-L sin alpha, -L cos alpha) for v from 0 to s and adds
the cross-section offset D * rot(alpha at s) applied to (d, 0).  The script
also rewrites 1/sqrt(theta_1) to sqrt(1/theta_1) to work around an
integration defect of its algebra system; our integrals stay unevaluated, so
that rewrite is the identity here and is omitted. -/

/-- The curvature field alpha of the script, an order-2 polynomial in v. -/
def alpha : Expr :=
  Expr.add (Expr.var (Sym.theta 0))
    (Expr.add (Expr.mul (Expr.var (Sym.theta 1)) (Expr.var Sym.v))
      (Expr.mul (Expr.mul (Expr.const 1 2) (Expr.var (Sym.theta 2)))
        (Expr.mul (Expr.var Sym.v) (Expr.var Sym.v))))

/-- Centerline forward kinematics: the integral part of fk. -/
def fkCore : Fin 2 → Expr
  | 0 => Expr.neg (Expr.mul (Expr.var Sym.L)
      (Expr.integral Sym.v (Expr.const 0 1) (Expr.var Sym.s) (Expr.sin alpha)))
  | 1 => Expr.neg (Expr.mul (Expr.var Sym.L)
      (Expr.integral Sym.v (Expr.const 0 1) (Expr.var Sym.s) (Expr.cos alpha)))

/-- The tangent angle at arclength s: alpha with v substituted by s. -/
def alphas : Expr := subs alpha Sym.v (Expr.var Sym.s)

/-- The 2x2 block of the rotation about the third axis at angle alphas, as the
algebra system builds it: rows (cos, sin) and (-sin, cos). -/
def rotAlpha : Fin 2 → Fin 2 → Expr
  | 0, 0 => Expr.cos alphas
  | 0, 1 => Expr.sin alphas
  | 1, 0 => Expr.neg (Expr.sin alphas)
  | 1, 1 => Expr.cos alphas

/-- Forward kinematics with the cross-section offset: fk plus D times the
rotated offset vector (d, 0), written as the full dot product of the rotation
row with (d, 0). -/
def fk (i : Fin 2) : Expr :=
  Expr.add (fkCore i)
    (Expr.mul (Expr.var Sym.D)
      (Expr.add (Expr.mul (rotAlpha i 0) (Expr.var Sym.d))
        (Expr.mul (rotAlpha i 1) (Expr.const 0 1))))

/-- The static Jacobian of fk with respect to theta_0, theta_1, theta_2
(line 81 of the script). -/
def J_static (i : Fin 2) (j : Nat) : Expr := diffE (fk i) (Sym.theta j)

/-! ## Gravity vector (script lines 112 to 119)

The potential is the gravity-projected height sin(gamma) fk_x + cos(gamma) fk_z
of the end mass at s = 1 and of the six point masses of mass m_L / 6 placed at
the segment midpoints i/6 + 1/12, each integrated over the cross section
d in the interval from -1/2 to 1/2.  G is the theta gradient of 9.81 U with
gamma fixed to 0; Gv keeps gamma symbolic.  The script computes the midpoints
with floating-point division; we use the rationals those quotients denote. -/

/-- Gravity-projected height of a point of the appendage. -/
def heightE : Expr :=
  Expr.add (Expr.mul (Expr.sin (Expr.var Sym.gamma)) (fk 0))
    (Expr.mul (Expr.cos (Expr.var Sym.gamma)) (fk 1))

/-- Arclength midpoint of the n-th of the six mass segments. -/
def massPos (n : Nat) : Expr := Expr.const (2 * n + 1) 12

/-- Potential energy U: end-mass term plus the loop accumulation over the six
point masses, exactly as the script builds it. -/
def U : Expr :=
  (List.range 6).foldl
    (fun acc n =>
      Expr.add acc
        (Expr.mul (Expr.mul (Expr.var Sym.m_L) (Expr.const 1 6))
          (Expr.integral Sym.d (Expr.const (-1) 2) (Expr.const 1 2)
            (subs heightE Sym.s (massPos n)))))
    (Expr.mul (Expr.var Sym.m_E)
      (Expr.integral Sym.d (Expr.const (-1) 2) (Expr.const 1 2)
        (subs heightE Sym.s (Expr.const 1 1))))

/-- Gravity vector: component i is the derivative of 9.81 times U at gamma = 0
with respect to theta_i. -/
def G (i : Nat) : Expr :=
  diffE (Expr.mul (Expr.const 981 100) (subs U Sym.gamma (Expr.const 0 1))) (Sym.theta i)

/-- Gravity vector with symbolic gravity direction gamma. -/
def Gv (i : Nat) : Expr :=
  diffE (Expr.mul (Expr.const 981 100) U) (Sym.theta i)

/-! ## Inertia matrix (script lines 131 to 135) -/

/-- Jacobian of fk evaluated at a fixed arclength: the script substitutes s and
then differentiates with respect to theta. -/
def Jat (sv : Expr) (i : Fin 2) (j : Nat) : Expr :=
  diffE (subs (fk i) Sym.s sv) (Sym.theta j)

/-- Entry (i, j) of the product of the transposed Jacobian with the Jacobian at
a fixed arclength: the sum over the two rows of fk. -/
def JTJ (sv : Expr) (i j : Nat) : Expr :=
  Expr.add (Expr.mul (Jat sv 0 i) (Jat sv 0 j)) (Expr.mul (Jat sv 1 i) (Jat sv 1 j))

/-- Inertia matrix: the end-mass term at s = 1 plus the loop accumulation of
the six point-mass terms, each integrated over the cross section. -/
def B (i j : Nat) : Expr :=
  (List.range 6).foldl
    (fun acc n =>
      Expr.add acc
        (Expr.mul (Expr.mul (Expr.var Sym.m_L) (Expr.const 1 6))
          (Expr.integral Sym.d (Expr.const (-1) 2) (Expr.const 1 2)
            (JTJ (massPos n) i j))))
    (Expr.mul (Expr.var Sym.m_E)
      (Expr.integral Sym.d (Expr.const (-1) 2) (Expr.const 1 2)
        (JTJ (Expr.const 1 1) i j)))

/-! ## Coriolis matrix (script lines 146 to 151) -/

/-- The Christoffel summand of the script: one half of the combination of
three partial derivatives of B entries. -/
def christoffel (i j k : Nat) : Expr :=
  Expr.mul (Expr.const 1 2)
    (Expr.add
      (Expr.add (diffE (B i j) (Sym.theta k)) (diffE (B i k) (Sym.theta j)))
      (Expr.neg (diffE (B j k) (Sym.theta i))))

/-- Coriolis matrix entry: the loop over k accumulating christoffel times
dtheta_k, starting from the zero matrix. -/
def C (i j : Nat) : Expr :=
  (List.range 3).foldl
    (fun acc k => Expr.add acc (Expr.mul (christoffel i j k) (Expr.var (Sym.dtheta k))))
    (Expr.const 0 1)

/-! ## Identification regressors (script lines 160 to 179) -/

/-- Row i of a 3x3 symbolic matrix applied to a symbol vector, as the algebra
system expands the product. -/
def matVec (M : Nat → Nat → Expr) (vec : Nat → Sym) (i : Nat) : Expr :=
  (List.range 3).foldl
    (fun acc j => Expr.add acc (Expr.mul (M i j) (Expr.var (vec j))))
    (Expr.const 0 1)

/-- Equation-of-motion residual E = B ddtheta + C dtheta + G. -/
def E (i : Nat) : Expr :=
  Expr.add (Expr.add (matVec B Sym.ddtheta i) (matVec C Sym.dtheta i)) (G i)

/-- Regressor Y: the Jacobian of E with respect to the mass pair m_L, m_E. -/
def Y (i : Nat) : Fin 2 → Expr
  | 0 => diffE (E i) Sym.m_L
  | 1 => diffE (E i) Sym.m_E

/-- Derivative of E with respect to m_L. -/
def dE_dmL (i : Nat) : Expr := diffE (E i) Sym.m_L

/-- E with m_L set to zero. -/
def E_mL_0 (i : Nat) : Expr := subs (E i) Sym.m_L (Expr.const 0 1)

/-- Derivative of E with respect to m_E. -/
def dE_dmE (i : Nat) : Expr := diffE (E i) Sym.m_E

/-- E with m_E set to zero. -/
def E_mE_0 (i : Nat) : Expr := subs (E i) Sym.m_E (Expr.const 0 1)

/-! ## Cache layout and evaluation layer

The derivation engine pickles each artifact to a named slot (script lines 86,
96, 124, 125, 140, 156, 163, 170, 171, 178, 179); the writes of the four
midpoint and endpoint slots are commented out.  The evaluation layer
(static_base.py) loads, at module import, the slots fk, J_static,
fk_mid_static, fk_end_static, J_mid_static and J_end_static, compiles fk and
J_static with a two-component theta argument, and runs two example calls of
the compiled Jacobian; the loaders of G, Gv, B, C and of the identification
group are commented out. -/

/-- Slot names the derivation engine writes, in script order. -/
def derivationWrites : List String :=
  ["fk", "J_static", "G", "Gv", "B", "C",
   "identification/Y", "identification/dE_dmL", "identification/E_mL_0",
   "identification/dE_dmE", "identification/E_mE_0"]

/-- Slot names the evaluation layer module loads, in source order. -/
def evalLoadSlots : List String :=
  ["fk", "J_static", "fk_mid_static", "fk_end_static", "J_mid_static", "J_end_static"]

/-- Evaluation entry points the evaluation layer defines, paired with the slot
each one evaluates. -/
def evalEntryPoints : List (String × String) :=
  [("fk", "eval_fk"), ("J_static", "eval_J"),
   ("fk_mid_static", "eval_midpt"), ("fk_end_static", "eval_endpt"),
   ("J_mid_static", "eval_J_midpt"), ("J_end_static", "eval_J_endpt")]

/-- Theta symbols the derivation script passes to lambdify (three components,
script line 34). -/
def derivThetaSyms : List Sym := [Sym.theta 0, Sym.theta 1, Sym.theta 2]

/-- Theta symbols the evaluation layer passes to lambdify (two components,
static_base.py line 13). -/
def evalThetaSyms : List Sym := [Sym.theta 0, Sym.theta 1]

/-- The remaining bound argument symbols of the evaluation-layer lambdify
calls for fk and J_static: the parameter vector p and the coordinates s, d. -/
def evalOtherSyms : List Sym := [Sym.m_L, Sym.m_E, Sym.L, Sym.D, Sym.s, Sym.d]

/-- Free symbols of the cached fk expression (both components). -/
def fkFreeSyms : List Sym := freeList (fk 0) ++ freeList (fk 1)

/-- Free symbols of the cached J_static expression (all six entries). -/
def jFreeSyms : List Sym :=
  freeList (J_static 0 0) ++ freeList (J_static 0 1) ++ freeList (J_static 0 2) ++
  freeList (J_static 1 0) ++ freeList (J_static 1 1) ++ freeList (J_static 1 2)

/-- Calling convention of a lambdified function: the theta argument is
unpacked into the bound theta symbols, raising a length error when the
supplied sequence does not match; then the expression is evaluated, raising a
name error when it has a free symbol no bound argument provides. -/
def lambdifiedCall {R : Type} (thetaArgs otherArgs frees : List Sym) (thetaVals : List R) :
    Except String Unit :=
  if thetaVals.length = thetaArgs.length then
    if frees.all (fun z => decide (z ∈ thetaArgs) || decide (z ∈ otherArgs)) then
      Except.ok ()
    else Except.error "NameError"
  else Except.error "ValueError"

/-- The compiled fk evaluator of the evaluation layer applied to a theta
value sequence. -/
def eval_fk_call {R : Type} (tv : List R) : Except String Unit :=
  lambdifiedCall evalThetaSyms evalOtherSyms fkFreeSyms tv

/-- The compiled Jacobian evaluator of the evaluation layer applied to a
theta value sequence. -/
def eval_J_call {R : Type} (tv : List R) : Except String Unit :=
  lambdifiedCall evalThetaSyms evalOtherSyms jFreeSyms tv

/-- Loading one cache slot: succeeds exactly when the slot exists. -/
def loadSlot (cache : List String) (nm : String) : Except String Unit :=
  if nm ∈ cache then Except.ok () else Except.error nm

/-- Import of the evaluation layer module over a given cache, following the
statement order of static_base.py: load fk, load J_static, run the two
import-time example calls of the compiled Jacobian with a two-component
theta, then load the four midpoint and endpoint slots. -/
def staticBaseImport (cache : List String) : Except String Unit :=
  (loadSlot cache "fk").bind fun _ =>
  (loadSlot cache "J_static").bind fun _ =>
  (eval_J_call [(1 : ℚ)/10, 1/10]).bind fun _ =>
  (eval_J_call [(1 : ℚ)/10, 1/10]).bind fun _ =>
  (loadSlot cache "fk_mid_static").bind fun _ =>
  (loadSlot cache "fk_end_static").bind fun _ =>
  (loadSlot cache "J_mid_static").bind fun _ =>
  (loadSlot cache "J_end_static").bind fun _ =>
  Except.ok ()

/-! ## General lemmas about the symbolic layer -/

/-- A free symbol of a substitution result was free in the original
expression or in the substituted expression. -/
theorem mem_freeList_subs {x : Sym} :
    ∀ (e : Expr) (y : Sym) (u : Expr),
      x ∈ freeList (subs e y u) → x ∈ freeList e ∨ x ∈ freeList u := by
  intro e
  induction e with
  | var z =>
      intro y u h
      by_cases hz : z = y
      · simp [subs, hz] at h
        exact Or.inr h
      · simp [subs, hz] at h ⊢
        exact Or.inl h
  | const n m => intro y u h; simp [subs, freeList] at h
  | add a b iha ihb =>
      intro y u h
      simp only [subs, freeList, List.mem_append] at h ⊢
      rcases h with h | h
      · rcases iha y u h with h1 | h1
        · exact Or.inl (Or.inl h1)
        · exact Or.inr h1
      · rcases ihb y u h with h1 | h1
        · exact Or.inl (Or.inr h1)
        · exact Or.inr h1
  | mul a b iha ihb =>
      intro y u h
      simp only [subs, freeList, List.mem_append] at h ⊢
      rcases h with h | h
      · rcases iha y u h with h1 | h1
        · exact Or.inl (Or.inl h1)
        · exact Or.inr h1
      · rcases ihb y u h with h1 | h1
        · exact Or.inl (Or.inr h1)
        · exact Or.inr h1
  | neg a iha => intro y u h; exact iha y u h
  | sin a iha => intro y u h; exact iha y u h
  | cos a iha => intro y u h; exact iha y u h
  | integral w lo hi b ihlo ihhi ihb =>
      intro y u h
      simp only [subs, freeList, List.mem_append, List.mem_filter,
        decide_eq_true_eq] at h ⊢
      rcases h with (h | h) | h
      · rcases ihlo y u h with h1 | h1
        · exact Or.inl (Or.inl (Or.inl h1))
        · exact Or.inr h1
      · rcases ihhi y u h with h1 | h1
        · exact Or.inl (Or.inl (Or.inr h1))
        · exact Or.inr h1
      · by_cases hw : w = y
        · rw [if_pos hw] at h
          exact Or.inl (Or.inr h)
        · rw [if_neg hw] at h
          rcases ihb y u h.1 with h1 | h1
          · exact Or.inl (Or.inr ⟨h1, h.2⟩)
          · exact Or.inr h1

/-- After substituting a symbol away, it can only remain free through the
substituted expression. -/
theorem not_mem_freeList_subs_self {w : Sym} :
    ∀ (b u : Expr), w ∉ freeList u → w ∉ freeList (subs b w u) := by
  intro b
  induction b with
  | var z =>
      intro u hu
      by_cases hz : z = w
      · simpa [subs, hz] using hu
      · simp [subs, hz, freeList]
        exact fun hc => hz (hc.symm)
  | const n m => intro u hu; simp [subs, freeList]
  | add a b iha ihb =>
      intro u hu
      simp only [subs, freeList, List.mem_append]
      push_neg
      exact ⟨iha u hu, ihb u hu⟩
  | mul a b iha ihb =>
      intro u hu
      simp only [subs, freeList, List.mem_append]
      push_neg
      exact ⟨iha u hu, ihb u hu⟩
  | neg a iha => intro u hu; exact iha u hu
  | sin a iha => intro u hu; exact iha u hu
  | cos a iha => intro u hu; exact iha u hu
  | integral z lo hi b ihlo ihhi ihb =>
      intro u hu
      simp only [subs, freeList, List.mem_append, List.mem_filter, decide_eq_true_eq]
      push_neg
      refine ⟨⟨ihlo u hu, ihhi u hu⟩, ?_⟩
      by_cases hz : z = w
      · rw [if_pos hz]
        intro hmem
        exact hz.symm
      · rw [if_neg hz]
        intro hmem
        exact absurd hmem (ihb u hu)

/-- Symbolic differentiation introduces no new free symbols. -/
theorem mem_freeList_diffE {x : Sym} :
    ∀ (e : Expr) (y : Sym), x ∈ freeList (diffE e y) → x ∈ freeList e := by
  intro e
  induction e with
  | var z =>
      intro y h
      by_cases hz : z = y <;> simp [diffE, hz, freeList] at h
  | const n m => intro y h; simp [diffE, freeList] at h
  | add a b iha ihb =>
      intro y h
      simp only [diffE, freeList, List.mem_append] at h ⊢
      rcases h with h | h
      · exact Or.inl (iha y h)
      · exact Or.inr (ihb y h)
  | mul a b iha ihb =>
      intro y h
      simp only [diffE, freeList, List.mem_append] at h ⊢
      rcases h with (h | h) | (h | h)
      · exact Or.inl (iha y h)
      · exact Or.inr h
      · exact Or.inl h
      · exact Or.inr (ihb y h)
  | neg a iha => intro y h; exact iha y h
  | sin a iha =>
      intro y h
      simp only [diffE, freeList, List.mem_append] at h ⊢
      rcases h with h | h
      · exact h
      · exact iha y h
  | cos a iha =>
      intro y h
      simp only [diffE, freeList, List.mem_append] at h ⊢
      rcases h with h | h
      · exact h
      · exact iha y h
  | integral w lo hi b ihlo ihhi ihb =>
      intro y h
      by_cases hw : w = y
      · simp [diffE, hw, freeList] at h
      · simp only [diffE, if_neg hw, freeList, List.mem_append, List.mem_filter,
          decide_eq_true_eq] at h ⊢
        rcases h with ((h | h) | h) | ((h | h) | (h | h))
        · exact Or.inl (Or.inl h)
        · exact Or.inl (Or.inr h)
        · exact Or.inr ⟨ihb y h.1, h.2⟩
        · by_cases hx : x = w
          · subst hx
            by_cases hhi : x ∈ freeList hi
            · exact Or.inl (Or.inr hhi)
            · exact absurd h (not_mem_freeList_subs_self b hi hhi)
          · rcases mem_freeList_subs b w hi h with h1 | h1
            · exact Or.inr ⟨h1, hx⟩
            · exact Or.inl (Or.inr h1)
        · exact Or.inl (Or.inr (ihhi y h))
        · by_cases hx : x = w
          · subst hx
            by_cases hlo : x ∈ freeList lo
            · exact Or.inl (Or.inl hlo)
            · exact absurd h (not_mem_freeList_subs_self b lo hlo)
          · rcases mem_freeList_subs b w lo h with h1 | h1
            · exact Or.inr ⟨h1, hx⟩
            · exact Or.inl (Or.inl h1)
        · exact Or.inl (Or.inl (ihlo y h))

/-- A free symbol of a left fold of additions comes from the start expression
or from one of the added terms. -/
theorem mem_freeList_foldadd {x : Sym} (f : Nat → Expr) :
    ∀ (l : List Nat) (e0 : Expr),
      x ∈ freeList (l.foldl (fun acc n => Expr.add acc (f n)) e0) →
      x ∈ freeList e0 ∨ ∃ n ∈ l, x ∈ freeList (f n) := by
  intro l
  induction l with
  | nil => intro e0 h; exact Or.inl h
  | cons a t ih =>
      intro e0 h
      rcases ih (Expr.add e0 (f a)) h with h1 | h1
      · simp only [freeList, List.mem_append] at h1
        rcases h1 with h1 | h1
        · exact Or.inl h1
        · exact Or.inr ⟨a, List.mem_cons_self a t, h1⟩
      · rcases h1 with ⟨n, hn, hx⟩
        exact Or.inr ⟨n, List.mem_cons_of_mem a hn, hx⟩

/-- Bridge between the boolean subset check and membership. -/
theorem allIn_iff {l A : List Sym} : allIn l A = true ↔ ∀ x ∈ l, x ∈ A := by
  simp [allIn, List.all_eq_true, decide_eq_true_eq]

theorem freeList_var (x : Sym) : freeList (Expr.var x) = [x] := rfl

theorem freeList_const (n : Int) (m : Nat) : freeList (Expr.const n m) = [] := rfl

theorem freeList_add (a b : Expr) :
    freeList (Expr.add a b) = freeList a ++ freeList b := rfl

theorem freeList_mul (a b : Expr) :
    freeList (Expr.mul a b) = freeList a ++ freeList b := rfl

theorem freeList_neg (a : Expr) : freeList (Expr.neg a) = freeList a := rfl

/-! ## Free-symbol sets of the cached artifacts

Each artifact may only mention the symbols of its declared evaluation
signature: theta and p and the coordinates s, d for fk and the Jacobian;
theta and p for B and G; gamma in addition for Gv; the theta rates in
addition for C; both rates for the identification group. -/

/-- Symbols admissible in the cached fk and J_static expressions. -/
def fkAllowed : List Sym :=
  [Sym.theta 0, Sym.theta 1, Sym.theta 2, Sym.L, Sym.D, Sym.s, Sym.d]

/-- Symbols admissible in the cached B and G expressions: theta and p. -/
def bAllowed : List Sym :=
  [Sym.theta 0, Sym.theta 1, Sym.theta 2, Sym.m_L, Sym.m_E, Sym.L, Sym.D]

/-- Symbols admissible in the cached Gv expression. -/
def gvAllowed : List Sym := bAllowed ++ [Sym.gamma]

/-- Symbols admissible in the cached C expression. -/
def cAllowed : List Sym := bAllowed ++ [Sym.dtheta 0, Sym.dtheta 1, Sym.dtheta 2]

/-- Symbols admissible in the cached identification expressions. -/
def identAllowed : List Sym :=
  cAllowed ++ [Sym.ddtheta 0, Sym.ddtheta 1, Sym.ddtheta 2]

theorem free_fk_mem : ∀ (i : Fin 2), ∀ x ∈ freeList (fk i), x ∈ fkAllowed := by
  intro i
  rw [← allIn_iff]
  revert i
  decide

theorem free_J_mem (i : Fin 2) (j : Nat) :
    ∀ x ∈ freeList (J_static i j), x ∈ fkAllowed :=
  fun x hx => free_fk_mem i x (mem_freeList_diffE (fk i) (Sym.theta j) hx)

theorem free_B_mem :
    ∀ (i j : Nat), i < 3 → j < 3 → ∀ x ∈ freeList (B i j), x ∈ bAllowed := by
  have h : ∀ (i j : Fin 3), allIn (freeList (B i.val j.val)) bAllowed = true := by decide
  intro i j hi hj
  exact allIn_iff.mp (h ⟨i, hi⟩ ⟨j, hj⟩)

theorem free_G_mem : ∀ (i : Fin 3), ∀ x ∈ freeList (G i.val), x ∈ bAllowed := by
  intro i
  rw [← allIn_iff]
  revert i
  decide

theorem free_Gv_mem : ∀ (i : Fin 3), ∀ x ∈ freeList (Gv i.val), x ∈ gvAllowed := by
  intro i
  rw [← allIn_iff]
  revert i
  decide

theorem free_C_mem :
    ∀ (i j : Nat), i < 3 → j < 3 → ∀ x ∈ freeList (C i j), x ∈ cAllowed := by
  intro i j hi hj x hx
  rcases mem_freeList_foldadd
      (fun k => Expr.mul (christoffel i j k) (Expr.var (Sym.dtheta k)))
      (List.range 3) (Expr.const 0 1) hx with h0 | ⟨k, hk, hxk⟩
  · rw [freeList_const] at h0
    exact absurd h0 (List.not_mem_nil x)
  · have hk3 : k < 3 := List.mem_range.mp hk
    rw [freeList_mul, freeList_var] at hxk
    rcases List.mem_append.mp hxk with h | h
    · rw [show christoffel i j k = Expr.mul (Expr.const 1 2)
        (Expr.add
          (Expr.add (diffE (B i j) (Sym.theta k)) (diffE (B i k) (Sym.theta j)))
          (Expr.neg (diffE (B j k) (Sym.theta i)))) from rfl] at h
      rw [freeList_mul, freeList_const, freeList_add, freeList_add, freeList_neg,
        List.nil_append] at h
      rcases List.mem_append.mp h with h | h
      · rcases List.mem_append.mp h with h | h
        · exact List.mem_append_left _
            (free_B_mem i j hi hj x (mem_freeList_diffE _ _ h))
        · exact List.mem_append_left _
            (free_B_mem i k hi hk3 x (mem_freeList_diffE _ _ h))
      · exact List.mem_append_left _
          (free_B_mem j k hj hk3 x (mem_freeList_diffE _ _ h))
    · have hxe : x = Sym.dtheta k := List.mem_singleton.mp h
      subst hxe
      have hk012 : k = 0 ∨ k = 1 ∨ k = 2 := by omega
      rcases hk012 with rfl | rfl | rfl <;> simp [cAllowed, bAllowed]

theorem free_E_mem :
    ∀ (i : Nat), i < 3 → ∀ x ∈ freeList (E i), x ∈ identAllowed := by
  intro i hi x hx
  have hcB : x ∈ cAllowed → x ∈ identAllowed := List.mem_append_left _
  have hbB : x ∈ bAllowed → x ∈ identAllowed :=
    fun h => hcB (List.mem_append_left _ h)
  rw [show E i = Expr.add
      (Expr.add (matVec B Sym.ddtheta i) (matVec C Sym.dtheta i)) (G i) from rfl,
    freeList_add, freeList_add] at hx
  rcases List.mem_append.mp hx with h | h
  swap
  · exact hbB (free_G_mem ⟨i, hi⟩ x h)
  rcases List.mem_append.mp h with h | h
  · rcases mem_freeList_foldadd
        (fun j => Expr.mul (B i j) (Expr.var (Sym.ddtheta j)))
        (List.range 3) (Expr.const 0 1) h with h0 | ⟨k, hk, hxk⟩
    · rw [freeList_const] at h0
      exact absurd h0 (List.not_mem_nil x)
    · have hk3 : k < 3 := List.mem_range.mp hk
      rw [freeList_mul, freeList_var] at hxk
      rcases List.mem_append.mp hxk with h | h
      · exact hbB (free_B_mem i k hi hk3 x h)
      · have hxe : x = Sym.ddtheta k := List.mem_singleton.mp h
        subst hxe
        have hk012 : k = 0 ∨ k = 1 ∨ k = 2 := by omega
        rcases hk012 with rfl | rfl | rfl <;>
          simp [identAllowed, cAllowed, bAllowed]
  · rcases mem_freeList_foldadd
        (fun j => Expr.mul (C i j) (Expr.var (Sym.dtheta j)))
        (List.range 3) (Expr.const 0 1) h with h0 | ⟨k, hk, hxk⟩
    · rw [freeList_const] at h0
      exact absurd h0 (List.not_mem_nil x)
    · have hk3 : k < 3 := List.mem_range.mp hk
      rw [freeList_mul, freeList_var] at hxk
      rcases List.mem_append.mp hxk with h | h
      · exact hcB (free_C_mem i k hi hk3 x h)
      · have hxe : x = Sym.dtheta k := List.mem_singleton.mp h
        subst hxe
        have hk012 : k = 0 ∨ k = 1 ∨ k = 2 := by omega
        rcases hk012 with rfl | rfl | rfl <;>
          simp [identAllowed, cAllowed, bAllowed]

theorem free_Y_mem (i : Nat) (hi : i < 3) (m : Fin 2) :
    ∀ x ∈ freeList (Y i m), x ∈ identAllowed := by
  intro x hx
  have : x ∈ freeList (E i) := by
    match m with
    | 0 => exact mem_freeList_diffE _ _ hx
    | 1 => exact mem_freeList_diffE _ _ hx
  exact free_E_mem i hi x this

theorem free_dE_dmL_mem (i : Nat) (hi : i < 3) :
    ∀ x ∈ freeList (dE_dmL i), x ∈ identAllowed :=
  fun x hx => free_E_mem i hi x (mem_freeList_diffE _ _ hx)

theorem free_dE_dmE_mem (i : Nat) (hi : i < 3) :
    ∀ x ∈ freeList (dE_dmE i), x ∈ identAllowed :=
  fun x hx => free_E_mem i hi x (mem_freeList_diffE _ _ hx)

theorem free_E_mL_0_mem (i : Nat) (hi : i < 3) :
    ∀ x ∈ freeList (E_mL_0 i), x ∈ identAllowed := by
  intro x hx
  rcases mem_freeList_subs _ _ _ hx with h | h
  · exact free_E_mem i hi x h
  · simp [freeList] at h

theorem free_E_mE_0_mem (i : Nat) (hi : i < 3) :
    ∀ x ∈ freeList (E_mE_0 i), x ∈ identAllowed := by
  intro x hx
  rcases mem_freeList_subs _ _ _ hx with h | h
  · exact free_E_mem i hi x h
  · simp [freeList] at h

/-! ## Denotation lemmas -/

theorem denote_var (env : Sym → ℝ) (x : Sym) : denote env (Expr.var x) = env x := rfl

theorem denote_const (env : Sym → ℝ) (n : Int) (m : Nat) :
    denote env (Expr.const n m) = (n : ℝ) / (m : ℝ) := rfl

theorem denote_add (env : Sym → ℝ) (a b : Expr) :
    denote env (Expr.add a b) = denote env a + denote env b := rfl

theorem denote_mul (env : Sym → ℝ) (a b : Expr) :
    denote env (Expr.mul a b) = denote env a * denote env b := rfl

theorem denote_neg (env : Sym → ℝ) (a : Expr) :
    denote env (Expr.neg a) = -denote env a := rfl

theorem denote_sin (env : Sym → ℝ) (a : Expr) :
    denote env (Expr.sin a) = Real.sin (denote env a) := rfl

theorem denote_cos (env : Sym → ℝ) (a : Expr) :
    denote env (Expr.cos a) = Real.cos (denote env a) := rfl

theorem denote_integral (env : Sym → ℝ) (x : Sym) (lo hi b : Expr) :
    denote env (Expr.integral x lo hi b) =
      ∫ t in (denote env lo)..(denote env hi), denote (Function.update env x t) b := rfl

/-- Two integrals agree when the integrands agree pointwise. -/
theorem denote_integral_congr (env : Sym → ℝ) (x : Sym) (lo hi b1 b2 : Expr)
    (h : ∀ t : ℝ, denote (Function.update env x t) b1 =
      denote (Function.update env x t) b2) :
    denote env (Expr.integral x lo hi b1) = denote env (Expr.integral x lo hi b2) := by
  rw [denote_integral, denote_integral]
  congr 1
  funext t
  exact h t

/-- Denotation of a fold of additions is preserved by termwise equality. -/
theorem denote_foldadd_congr (f g : Nat → Expr) (env : Sym → ℝ) :
    ∀ (l : List Nat) (e0 e1 : Expr),
      denote env e0 = denote env e1 →
      (∀ n ∈ l, denote env (f n) = denote env (g n)) →
      denote env (l.foldl (fun acc n => Expr.add acc (f n)) e0) =
        denote env (l.foldl (fun acc n => Expr.add acc (g n)) e1) := by
  intro l
  induction l with
  | nil => intro e0 e1 h0 _; exact h0
  | cons a t ih =>
      intro e0 e1 h0 h
      apply ih
      · rw [denote_add, denote_add, h0, h a (List.mem_cons_self a t)]
      · exact fun n hn => h n (List.mem_cons_of_mem a hn)

/-- The entries of the transposed-Jacobian product are symmetric in the two
theta indices, pointwise in the environment. -/
theorem denote_JTJ_symm (sv : Expr) (i j : Nat) (env : Sym → ℝ) :
    denote env (JTJ sv i j) = denote env (JTJ sv j i) := by
  rw [show JTJ sv i j = Expr.add (Expr.mul (Jat sv 0 i) (Jat sv 0 j))
      (Expr.mul (Jat sv 1 i) (Jat sv 1 j)) from rfl,
    show JTJ sv j i = Expr.add (Expr.mul (Jat sv 0 j) (Jat sv 0 i))
      (Expr.mul (Jat sv 1 j) (Jat sv 1 i)) from rfl]
  rw [denote_add, denote_add, denote_mul, denote_mul, denote_mul, denote_mul]
  ring

/-- Symmetry of the inertia matrix entries, pointwise in the environment. -/
theorem denote_B_symm (i j : Nat) (env : Sym → ℝ) :
    denote env (B i j) = denote env (B j i) := by
  have hint : ∀ sv : Expr,
      denote env (Expr.integral Sym.d (Expr.const (-1) 2) (Expr.const 1 2) (JTJ sv i j)) =
      denote env (Expr.integral Sym.d (Expr.const (-1) 2) (Expr.const 1 2) (JTJ sv j i)) :=
    fun sv => denote_integral_congr env Sym.d _ _ _ _
      (fun t => denote_JTJ_symm sv i j (Function.update env Sym.d t))
  refine denote_foldadd_congr
    (fun n => Expr.mul (Expr.mul (Expr.var Sym.m_L) (Expr.const 1 6))
      (Expr.integral Sym.d (Expr.const (-1) 2) (Expr.const 1 2) (JTJ (massPos n) i j)))
    (fun n => Expr.mul (Expr.mul (Expr.var Sym.m_L) (Expr.const 1 6))
      (Expr.integral Sym.d (Expr.const (-1) 2) (Expr.const 1 2) (JTJ (massPos n) j i)))
    env (List.range 6)
    (Expr.mul (Expr.var Sym.m_E)
      (Expr.integral Sym.d (Expr.const (-1) 2) (Expr.const 1 2) (JTJ (Expr.const 1 1) i j)))
    (Expr.mul (Expr.var Sym.m_E)
      (Expr.integral Sym.d (Expr.const (-1) 2) (Expr.const 1 2) (JTJ (Expr.const 1 1) j i)))
    ?_ ?_
  · rw [denote_mul, denote_mul, hint]
  · intro n _
    rw [denote_mul, denote_mul, hint]
    rfl

/-- The Christoffel combination of the spec, written from its words: one half
of (dB[i,j]/dtheta_k + dB[i,k]/dtheta_j - dB[j,k]/dtheta_i), with the partial
derivative taken by the symbolic differential operator of the engine. -/
noncomputable def christoffelSpec (env : Sym → ℝ) (i j k : Nat) : ℝ :=
  1/2 * (denote env (diffE (B i j) (Sym.theta k)) +
    denote env (diffE (B i k) (Sym.theta j)) -
    denote env (diffE (B j k) (Sym.theta i)))

/-- The time derivative of B along dtheta, written from the words of the
spec: the sum over k of dB/dtheta_k times dtheta_k. -/
noncomputable def BdotSpec (env : Sym → ℝ) (i j : Nat) : ℝ :=
  ∑ k ∈ Finset.range 3, denote env (diffE (B i j) (Sym.theta k)) * env (Sym.dtheta k)

/-- Denotation of one Christoffel summand of the engine. -/
theorem denote_christoffel (i j k : Nat) (env : Sym → ℝ) :
    denote env (christoffel i j k) = christoffelSpec env i j k := by
  rw [show christoffel i j k = Expr.mul (Expr.const 1 2)
      (Expr.add
        (Expr.add (diffE (B i j) (Sym.theta k)) (diffE (B i k) (Sym.theta j)))
        (Expr.neg (diffE (B j k) (Sym.theta i)))) from rfl]
  rw [denote_mul, denote_const, denote_add, denote_add, denote_neg, christoffelSpec]
  push_cast
  ring

/-- Denotation of the Coriolis loop: the entry equals the Christoffel sum. -/
theorem denote_C_expand (i j : Nat) (env : Sym → ℝ) :
    denote env (C i j) =
      ∑ k ∈ Finset.range 3, christoffelSpec env i j k * env (Sym.dtheta k) := by
  rw [show C i j = Expr.add (Expr.add (Expr.add (Expr.const 0 1)
      (Expr.mul (christoffel i j 0) (Expr.var (Sym.dtheta 0))))
      (Expr.mul (christoffel i j 1) (Expr.var (Sym.dtheta 1))))
      (Expr.mul (christoffel i j 2) (Expr.var (Sym.dtheta 2))) from rfl]
  rw [denote_add, denote_add, denote_add, denote_mul, denote_mul, denote_mul,
    denote_var, denote_var, denote_var, denote_const,
    denote_christoffel, denote_christoffel, denote_christoffel,
    Finset.sum_range_succ, Finset.sum_range_succ, Finset.sum_range_succ,
    Finset.sum_range_zero]
  norm_num

/-! ## Environments used by the boundary claims -/

/-- Environment of the counterexample to the s = 0 boundary claim: theta = 0,
p = (1, 1, 1, 1), s = 0, and cross-section offset d = 1/2. -/
noncomputable def envC5 : Sym → ℝ
  | Sym.m_L => 1
  | Sym.m_E => 1
  | Sym.L => 1
  | Sym.D => 1
  | Sym.d => 1/2
  | _ => 0

/-- Override of an environment that sets s = 0 and d = 0. -/
noncomputable def atS0D0 (env : Sym → ℝ) : Sym → ℝ
  | Sym.s => 0
  | Sym.d => 0
  | x => env x

/-- Override of an environment that sets every theta coefficient to 0, s = 1
and d = 0. -/
noncomputable def atStraightTip (env : Sym → ℝ) : Sym → ℝ
  | Sym.theta _ => 0
  | Sym.s => 1
  | Sym.d => 0
  | x => env x

/-! ## Claim theorems -/

/-- C1: every entry of the derived Coriolis matrix equals the reference
Christoffel construction from the derived inertia matrix B: the sum over k of
one half of (dB[i,j]/dtheta_k + dB[i,k]/dtheta_j - dB[j,k]/dtheta_i) times
dtheta_k, over the full theta-by-theta index range. -/
theorem coriolis_is_christoffel_construction (i j : Fin 3) (env : Sym → ℝ) :
    denote env (C i.val j.val) =
      ∑ k ∈ Finset.range 3, christoffelSpec env i.val j.val k * env (Sym.dtheta k) :=
  denote_C_expand i.val j.val env

/-- C2: the derived inertia matrix is symmetric in every configuration and
for every parameter assignment, entry by entry. -/
theorem inertia_matrix_symmetric (i j : Fin 3) (env : Sym → ℝ) :
    denote env (B i.val j.val) = denote env (B j.val i.val) :=
  denote_B_symm i.val j.val env

/-- C3: Bdot minus twice the Coriolis matrix is skew-symmetric for every
theta, dtheta and p, where Bdot is the sum over k of dB/dtheta_k times
dtheta_k. -/
theorem bdot_minus_two_coriolis_skew (i j : Fin 3) (env : Sym → ℝ) :
    BdotSpec env i.val j.val - 2 * denote env (C i.val j.val) =
      -(BdotSpec env j.val i.val - 2 * denote env (C j.val i.val)) := by
  rw [denote_C_expand, denote_C_expand]
  simp only [BdotSpec, christoffelSpec, Finset.sum_range_succ, Finset.sum_range_zero]
  ring

/-- C4: the gravity vector G, which fixes gamma to 0 before taking the theta
gradient of 9.81 times the potential energy U, agrees with the symbolic
gravity vector Gv after substituting gamma by 0, for every theta and p. -/
theorem G_matches_Gv_at_gamma_zero (i : Fin 3) (env : Sym → ℝ) :
    denote env (G i.val) = denote env (subs (Gv i.val) Sym.gamma (Expr.const 0 1)) := by
  have h : ∀ m : Fin 3, G m.val = subs (Gv m.val) Sym.gamma (Expr.const 0 1) := by
    decide
  exact congrArg (denote env) (h i)

/-- C5 counterexample: at theta = 0, p = (1, 1, 1, 1), s = 0 and cross-section
offset d = 1/2 the x component of the forward kinematics evaluates to 1/2, not
to 0: the cross-section offset term D d rot(alpha at 0) does not vanish at
s = 0, so fk(s = 0) is not (0, 0) for every offset d. -/
theorem fk_at_s0_offset_counterexample :
    denote envC5 (fk 0) = 1/2 ∧ ((1 : ℝ)/2 ≠ 0) := by
  constructor
  · simp [fk, fkCore, rotAlpha, alphas, alpha, subs, denote, envC5,
      intervalIntegral.integral_same]
  · norm_num

/-- C5 amended: at s = 0 and central offset d = 0, the forward kinematics is
(0, 0) for every theta and every p. -/
theorem fk_at_s0_center_zero (env : Sym → ℝ) (i : Fin 2) :
    denote (atS0D0 env) (fk i) = 0 := by
  fin_cases i <;>
    simp [fk, fkCore, rotAlpha, alphas, alpha, subs, denote, atS0D0,
      intervalIntegral.integral_same]

/-- C6: in the straight configuration theta = 0, at s = 1 and d = 0, the
forward kinematics returns exactly (0, -L) for every parameter assignment. -/
theorem fk_straight_config_tip (env : Sym → ℝ) :
    denote (atStraightTip env) (fk 0) = 0 ∧
    denote (atStraightTip env) (fk 1) = -(env Sym.L) := by
  constructor <;>
    simp [fk, fkCore, rotAlpha, alphas, alpha, subs, denote, atStraightTip,
      Function.update_apply]

/-- Whether a call result is a success. -/
def isOkE : Except String Unit → Bool
  | Except.ok _ => true
  | Except.error _ => false

/-- C7 counterexample: the slot G belongs to the persisted cache layout, but
the evaluation layer never loads it and defines no entry point for it: the
loaders of the dynamic terms G, Gv, B, C and of the identification group are
commented out in static_base.py. -/
theorem eval_layer_missing_G_counterexample :
    "G" ∈ derivationWrites ∧
    evalLoadSlots.count "G" = 0 ∧
    ((evalEntryPoints.map Prod.fst).contains "G") = false := by
  decide

/-- C7 amended: of the persisted artifacts, the evaluation layer loads and
exposes entry points only for fk and J_static, each loaded once per process
lifetime; the slots G, Gv, B, C and the identification group are neither
loaded nor given entry points (their loaders are commented out), while four
midpoint and endpoint slots outside the engine writes are loaded in
addition. -/
theorem eval_layer_loads_only_fk_and_J :
    (evalLoadSlots.count "fk" = 1 ∧ ("fk", "eval_fk") ∈ evalEntryPoints) ∧
    (evalLoadSlots.count "J_static" = 1 ∧ ("J_static", "eval_J") ∈ evalEntryPoints) ∧
    ((["G", "Gv", "B", "C", "identification/Y", "identification/dE_dmL",
        "identification/E_mL_0", "identification/dE_dmE",
        "identification/E_mE_0"].all
      fun nm => decide (evalLoadSlots.count nm = 0) &&
        !((evalEntryPoints.map Prod.fst).contains nm)) = true) := by
  decide

/-- C8: every call of the compiled fk or Jacobian evaluator whose theta value
sequence does not have length 3 (the poly_order + 1 of derivation time) fails
with an error instead of returning a numeric result: a length other than 2
fails the unpacking into the two theta symbols the evaluation layer binds,
and length 2 leaves the free symbol theta_2 of the cached expression
unbound. -/
theorem wrong_theta_length_fails (tv : List ℝ) (h : tv.length ≠ 3) :
    isOkE (eval_fk_call tv) = false ∧ isOkE (eval_J_call tv) = false := by
  by_cases h2 : tv.length = 2
  · have hcond : tv.length = evalThetaSyms.length := by rw [h2]; rfl
    have hffree : (fkFreeSyms.all fun z =>
        decide (z ∈ evalThetaSyms) || decide (z ∈ evalOtherSyms)) = false := by decide
    have hjfree : (jFreeSyms.all fun z =>
        decide (z ∈ evalThetaSyms) || decide (z ∈ evalOtherSyms)) = false := by decide
    constructor
    · simp only [eval_fk_call, lambdifiedCall, if_pos hcond, hffree]
      rfl
    · simp only [eval_J_call, lambdifiedCall, if_pos hcond, hjfree]
      rfl
  · have hcond : ¬(tv.length = evalThetaSyms.length) := by
      intro hc
      exact h2 hc
    constructor
    · simp only [eval_fk_call, lambdifiedCall, if_neg hcond]
      rfl
    · simp only [eval_J_call, lambdifiedCall, if_neg hcond]
      rfl

/-- Witness for C8 at the concrete two-component call the module itself
makes. -/
theorem wrong_theta_length_fails_witness :
    (([(0 : ℝ), 0] : List ℝ).length ≠ 3) ∧
    (isOkE (eval_fk_call [(0 : ℝ), 0]) = false ∧
      isOkE (eval_J_call [(0 : ℝ), 0]) = false) :=
  ⟨by decide, wrong_theta_length_fails [0, 0] (by decide)⟩

/-- C9 counterexample: the compiled evaluation signature does not exactly
match the derivation symbol set: derivation binds three theta components, the
evaluation layer binds two, and theta_2 is free in the cached fk expression
but bound by no evaluation argument. -/
theorem eval_signature_mismatch_counterexample :
    evalThetaSyms ≠ derivThetaSyms ∧
    Sym.theta 2 ∈ freeList (fk 0) ∧
    Sym.theta 2 ∉ evalThetaSyms ++ evalOtherSyms := by
  decide

/-- C9 amended: the free symbols of every cached artifact stay within the
symbol set of its declared signature (theta, p, s, d for fk and J_static;
theta, p for G and B; gamma in addition for Gv; the theta rates in addition
for C; both rates for the identification group), but the evaluation-layer
compiled signature does not match the derivation symbol set: it binds two
theta components where derivation used three. -/
theorem free_symbols_in_signature_and_mismatch :
    (∀ i : Fin 2, allIn (freeList (fk i)) fkAllowed = true) ∧
    (∀ (i : Fin 2) (j : Fin 3), allIn (freeList (J_static i j.val)) fkAllowed = true) ∧
    (∀ i : Fin 3, allIn (freeList (G i.val)) bAllowed = true) ∧
    (∀ i : Fin 3, allIn (freeList (Gv i.val)) gvAllowed = true) ∧
    (∀ i j : Fin 3, allIn (freeList (B i.val j.val)) bAllowed = true) ∧
    (∀ i j : Fin 3, allIn (freeList (C i.val j.val)) cAllowed = true) ∧
    (∀ (i : Fin 3) (m : Fin 2), allIn (freeList (Y i.val m)) identAllowed = true) ∧
    (∀ i : Fin 3, allIn (freeList (dE_dmL i.val)) identAllowed = true) ∧
    (∀ i : Fin 3, allIn (freeList (E_mL_0 i.val)) identAllowed = true) ∧
    (∀ i : Fin 3, allIn (freeList (dE_dmE i.val)) identAllowed = true) ∧
    (∀ i : Fin 3, allIn (freeList (E_mE_0 i.val)) identAllowed = true) ∧
    evalThetaSyms ≠ derivThetaSyms := by
  refine ⟨?_, ?_, ?_, ?_, ?_, ?_, ?_, ?_, ?_, ?_, ?_, ?_⟩
  · exact fun i => allIn_iff.mpr (free_fk_mem i)
  · exact fun i j => allIn_iff.mpr (free_J_mem i j.val)
  · exact fun i => allIn_iff.mpr (free_G_mem i)
  · exact fun i => allIn_iff.mpr (free_Gv_mem i)
  · exact fun i j => allIn_iff.mpr (free_B_mem i.val j.val i.isLt j.isLt)
  · exact fun i j => allIn_iff.mpr (free_C_mem i.val j.val i.isLt j.isLt)
  · exact fun i m => allIn_iff.mpr (free_Y_mem i.val i.isLt m)
  · exact fun i => allIn_iff.mpr (free_dE_dmL_mem i.val i.isLt)
  · exact fun i => allIn_iff.mpr (free_E_mL_0_mem i.val i.isLt)
  · exact fun i => allIn_iff.mpr (free_dE_dmE_mem i.val i.isLt)
  · exact fun i => allIn_iff.mpr (free_E_mE_0_mem i.val i.isLt)
  · decide

/-- C10: the evaluation layer module contains unconditional loads of the four
midpoint and endpoint slots, none of which the derivation engine writes, and
importing the module over a cache holding exactly the engine writes fails
before any evaluation entry point becomes available: the import aborts at
the import-time Jacobian example call with a name error, because the cached
J_static uses three theta symbols while the module binds only two. -/
theorem import_fails_on_engine_cache :
    ("fk_mid_static" ∈ evalLoadSlots ∧ "fk_mid_static" ∉ derivationWrites) ∧
    ("fk_end_static" ∈ evalLoadSlots ∧ "fk_end_static" ∉ derivationWrites) ∧
    ("J_mid_static" ∈ evalLoadSlots ∧ "J_mid_static" ∉ derivationWrites) ∧
    ("J_end_static" ∈ evalLoadSlots ∧ "J_end_static" ∉ derivationWrites) ∧
    staticBaseImport derivationWrites = Except.error "NameError" := by
  refine ⟨by decide, by decide, by decide, by decide, ?_⟩
  rfl

end AcdloStaticBase
